import Mathlib

/-!
Verification of the transactions-dashboard ingestion pipeline
(`bankfiles.py`, `amex9.py`) against its natural-language specification.

The Python source is shallowly embedded: pandas DataFrame columns become
lists, cells become an explicit `Cell` type, interactive prompts become
explicit collaborator arguments, and the filesystem state of the master
CSV becomes an `Option (List TransactionRecord)`.
-/

namespace Dashboard

/-- Contiguous-sublist check on character lists: `infixOfB pat l` is true
iff `pat` occurs as a contiguous run inside `l`.  Embeds Python's
substring operator `pat in l`. -/
def infixOfB (pat : List Char) : List Char → Bool
  | [] => pat.isEmpty
  | b :: t => pat.isPrefixOf (b :: t) || infixOfB pat t

/-- `substrB pat s` embeds Python's `pat in s` substring test. -/
def substrB (pat s : String) : Bool :=
  infixOfB pat.data s.data

/-- Splits a character list at every occurrence of `sep`, keeping empty
pieces, with `acc` the (reversed) piece under construction. -/
def splitCharAux (sep : Char) : List Char → List Char → List (List Char)
  | [], acc => [acc.reverse]
  | c :: t, acc =>
    if c = sep then acc.reverse :: splitCharAux sep t [] else splitCharAux sep t (c :: acc)

/-- Embeds Python's `s.split(sep)` for a one-character separator: empty
pieces are kept, and splitting the empty string yields `[""]`. -/
def pySplit (sep : Char) (s : String) : List String :=
  (splitCharAux sep s.data []).map String.mk

/-- Embeds Python's `s.strip()`: removes leading and trailing
whitespace. -/
def pyStrip (s : String) : String :=
  String.mk (((s.data.dropWhile Char.isWhitespace).reverse.dropWhile Char.isWhitespace).reverse)

/-- Embeds Python's `s.lower()`. -/
def pyLower (s : String) : String :=
  String.mk (s.data.map Char.toLower)

/-- One row of `vendor_rules.csv` as loaded by `load_vendor_rules`:
columns `keyword, vendor, category, tag` (keyword already lowercased at
load time). -/
structure VendorRule where
  keyword : String
  vendor : String
  category : String
  tag : String
deriving DecidableEq, Repr

/-- The per-rule test of `determine_vendor_cat_tag`: split the rule's
keyword on `&` and require every trimmed piece to be a substring of the
(already lowercased) description `d` —
`all(kw.strip() in d for kw in keywords)`. -/
def ruleMatches (d : String) (r : VendorRule) : Bool :=
  (pySplit '&' r.keyword).all (fun kw => substrB (pyStrip kw) d)

/-- `determine_vendor_cat_tag` from `bankfiles.py` / `amex9.py` (the two
copies are identical): lowercase the description, scan the loaded rules
in order, return the first rule whose keywords all match, else
`("", "", "")`.  The loaded rule table is passed explicitly instead of
the Python module-global `vendor_rules_df`. -/
def determine_vendor_cat_tag (rules : List VendorRule) (desc : String) :
    String × String × String :=
  match rules.find? (ruleMatches (pyLower desc)) with
  | some r => (r.vendor, r.category, r.tag)
  | none => ("", "", "")

/-- `find?` returns the head of the filtered list. -/
theorem find?_eq_head?_filter (p : α → Bool) (l : List α) :
    l.find? p = (l.filter p).head? := by
  induction l with
  | nil => rfl
  | cons a t ih =>
    by_cases h : p a = true
    · rw [List.find?_cons_of_pos _ h, List.filter_cons_of_pos h, List.head?_cons]
    · rw [List.find?_cons_of_neg _ h, List.filter_cons_of_neg h, ih]

/-- `find?` finds the first element satisfying the predicate: either some
index `i` whose element satisfies `p` while every earlier index fails, or
no element satisfies `p` at all. -/
theorem find?_first_index (p : α → Bool) (l : List α) :
    (∃ i : Fin l.length, p (l.get i) = true ∧
      (∀ j : Fin l.length, (j : ℕ) < (i : ℕ) → p (l.get j) = false) ∧
      l.find? p = some (l.get i)) ∨
    ((∀ a ∈ l, p a = false) ∧ l.find? p = none) := by
  induction l with
  | nil => exact Or.inr ⟨by simp, rfl⟩
  | cons a t ih =>
    by_cases h : p a = true
    · refine Or.inl ⟨⟨0, by simp⟩, ?_, ?_, ?_⟩
      · simpa using h
      · intro j hj; simp at hj
      · rw [List.find?_cons_of_pos _ h]; rfl
    · rw [Bool.not_eq_true] at h
      rcases ih with ⟨i, hp, hprev, hfind⟩ | ⟨hall, hfind⟩
      · refine Or.inl ⟨⟨i.1 + 1, by simp⟩, by simpa using hp, ?_, ?_⟩
        · rintro ⟨j, hjlt⟩ hji
          cases j with
          | zero => simpa using h
          | succ k =>
            have hk : k < t.length := by simpa using hjlt
            have := hprev ⟨k, hk⟩ (by simpa using hji)
            simpa using this
        · rw [List.find?_cons_of_neg _ (by simp [h]), hfind]
          simp
      · refine Or.inr ⟨?_, ?_⟩
        · intro x hx
          rcases List.mem_cons.mp hx with rfl | hx'
          · exact h
          · exact hall x hx'
        · rw [List.find?_cons_of_neg _ (by simp [h])]; exact hfind

/-- An empty pattern is a substring of every string. -/
theorem substrB_empty (s : String) : substrB "" s = true := by
  have h : ("" : String).data = [] := rfl
  unfold substrB
  rw [h]
  induction s.data with
  | nil => rfl
  | cons b t ih => simp [infixOfB, ih]

/-- C1: `determine_vendor_cat_tag` lowercases the description, iterates
the rules in order, and returns the vendor/category/tag triple of the
first rule all of whose `&`-split, trimmed keywords are literal
substrings of the lowercased description; if no rule matches it returns
`("", "", "")`. -/
theorem determine_vendor_cat_tag_first_match (rules : List VendorRule) (desc : String) :
    (∃ i : Fin rules.length,
      ruleMatches (pyLower desc) (rules.get i) = true ∧
      (∀ j : Fin rules.length, (j : ℕ) < (i : ℕ) →
        ruleMatches (pyLower desc) (rules.get j) = false) ∧
      determine_vendor_cat_tag rules desc =
        ((rules.get i).vendor, (rules.get i).category, (rules.get i).tag)) ∨
    ((∀ r ∈ rules, ruleMatches (pyLower desc) r = false) ∧
      determine_vendor_cat_tag rules desc = ("", "", "")) := by
  rcases find?_first_index (ruleMatches (pyLower desc)) rules with
    ⟨i, hp, hprev, hfind⟩ | ⟨hall, hfind⟩
  · exact Or.inl ⟨i, hp, hprev, by rw [determine_vendor_cat_tag, hfind]⟩
  · exact Or.inr ⟨hall, by rw [determine_vendor_cat_tag, hfind]⟩

/-- C8: the classifier result depends only on the subsequence of rules
that match the description, so it is deterministic and removing or
reordering non-matching rules (keeping the relative order of matching
rules) does not change the result. -/
theorem determine_vendor_cat_tag_filter_invariant
    (desc : String) (rules rules' : List VendorRule)
    (hfilter : rules.filter (ruleMatches (pyLower desc)) =
      rules'.filter (ruleMatches (pyLower desc))) :
    determine_vendor_cat_tag rules desc = determine_vendor_cat_tag rules' desc := by
  rw [determine_vendor_cat_tag, determine_vendor_cat_tag,
    find?_eq_head?_filter, find?_eq_head?_filter, hfilter]

/-- Witness for C8: dropping a non-matching rule in front of a matching
one leaves the classification unchanged. -/
theorem determine_vendor_cat_tag_filter_invariant_witness :
    [VendorRule.mk "zzz" "Z" "Z" "Z", VendorRule.mk "starbucks" "Starbucks" "Dining" "coffee"].filter
        (ruleMatches (pyLower "STARBUCKS #123")) =
      [VendorRule.mk "starbucks" "Starbucks" "Dining" "coffee"].filter
        (ruleMatches (pyLower "STARBUCKS #123")) ∧
    determine_vendor_cat_tag
        [VendorRule.mk "zzz" "Z" "Z" "Z", VendorRule.mk "starbucks" "Starbucks" "Dining" "coffee"]
        "STARBUCKS #123" =
      determine_vendor_cat_tag
        [VendorRule.mk "starbucks" "Starbucks" "Dining" "coffee"] "STARBUCKS #123" :=
  ⟨by decide, determine_vendor_cat_tag_filter_invariant _ _ _ (by decide)⟩

/-- C9: the classification triple is either taken whole from one rule of
the rule set or is `("", "", "")`: vendor, category and tag are never
mixed from different origins. -/
theorem determine_vendor_cat_tag_all_or_nothing (rules : List VendorRule) (desc : String) :
    (∃ r ∈ rules, determine_vendor_cat_tag rules desc = (r.vendor, r.category, r.tag)) ∨
    determine_vendor_cat_tag rules desc = ("", "", "") := by
  rcases hf : rules.find? (ruleMatches (pyLower desc)) with _ | r
  · exact Or.inr (by rw [determine_vendor_cat_tag, hf])
  · exact Or.inl ⟨r, List.mem_of_find?_eq_some hf, by rw [determine_vendor_cat_tag, hf]⟩

/-- C10: a rule whose `&`-split keyword pieces all trim to the empty
string matches every description, so placed first it always yields its
own triple. -/
theorem determine_vendor_cat_tag_blank_keyword
    (rules : List VendorRule) (desc : String) (r : VendorRule)
    (hblank : ∀ kw ∈ pySplit '&' r.keyword, pyStrip kw = "") :
    determine_vendor_cat_tag (r :: rules) desc = (r.vendor, r.category, r.tag) := by
  have hmatch : ruleMatches (pyLower desc) r = true := by
    rw [ruleMatches, List.all_eq_true]
    intro kw hkw
    rw [hblank kw hkw]
    exact substrB_empty _
  rw [determine_vendor_cat_tag, List.find?_cons_of_pos _ hmatch]

/-- Witness for C10: the bare keyword `"&"` splits into two empty pieces
and classifies any description as its own triple. -/
theorem determine_vendor_cat_tag_blank_keyword_witness :
    (∀ kw ∈ pySplit '&' "&", pyStrip kw = "") ∧
    determine_vendor_cat_tag [VendorRule.mk "&" "V" "C" "T"] "any description" = ("V", "C", "T") :=
  ⟨by decide, determine_vendor_cat_tag_blank_keyword [] "any description"
    (VendorRule.mk "&" "V" "C" "T") (by decide)⟩

/-- The canonical row shape written to `master_transactions.csv`:
columns `Date, Amount, description, statement, vendor, category, tag,
payment method`. -/
structure TransactionRecord where
  date : String
  amount : Rat
  description : String
  statement : String
  vendor : String
  category : String
  tag : String
  payment_method : String
deriving DecidableEq, Repr

/-- `update_master_file` from `bankfiles.py` / `amex9.py`: if the master
CSV exists, read it and concatenate the new batch after it; otherwise
the new batch is the whole store; then write the result back.  The
filesystem is embedded as the `Option (List TransactionRecord)` content
of `master_transactions.csv`, and the function returns the rows written
(which a subsequent load reads back). -/
def update_master_file (store : Option (List TransactionRecord))
    (newRows : List TransactionRecord) : List TransactionRecord :=
  match store with
  | some masterRows => masterRows ++ newRows
  | none => newRows

/-- Models `master_df.to_csv(master_filename, index=False)` interrupted
partway: `to_csv` opens the master file for writing (truncating it) and
streams the concatenated rows, so a failure after `k` rows leaves the
first `k` combined rows on disk.  The code uses no temporary file, no
atomic replace, and defines no `StoreWriteError`. -/
def update_master_file_interrupted (store : Option (List TransactionRecord))
    (newRows : List TransactionRecord) (k : Nat) : Option (List TransactionRecord) :=
  some ((update_master_file store newRows).take k)

/-- C6: ledger append is order-preserving and a round-trip: appending to
an absent ledger stores exactly the batch, and appending to an existing
ledger stores the old rows first and the new batch after them, in
order. -/
theorem update_master_file_round_trip (masterRows batch : List TransactionRecord) :
    update_master_file none batch = batch ∧
    (update_master_file (some masterRows) batch).take masterRows.length = masterRows ∧
    (update_master_file (some masterRows) batch).drop masterRows.length = batch ∧
    (update_master_file (some masterRows) batch).length =
      masterRows.length + batch.length := by
  refine ⟨rfl, ?_, ?_, ?_⟩ <;> simp [update_master_file]

/-- C7: the rewrite is not atomic — interrupting the in-place write of a
one-record ledger plus a one-record batch after zero rows leaves an
empty ledger, not the pre-ingestion one-record ledger. -/
theorem update_master_file_not_atomic :
    update_master_file_interrupted
        (some [TransactionRecord.mk "01/01/25" 1 "old row" "stmt" "" "" "" ""])
        [TransactionRecord.mk "01/02/25" 2 "new row" "stmt" "" "" "" ""] 0 = some [] ∧
    (some ([] : List TransactionRecord) ≠
      some [TransactionRecord.mk "01/01/25" 1 "old row" "stmt" "" "" "" ""]) := by
  refine ⟨rfl, ?_⟩
  intro h
  simp at h

/-- Count of strictly negative amounts, `(new_df["Amount"] < 0).sum()`. -/
def negCount (xs : List Rat) : Nat :=
  (xs.filter (fun a => a < 0)).length

/-- Count of strictly positive amounts, `(new_df["Amount"] > 0).sum()`. -/
def posCount (xs : List Rat) : Nat :=
  (xs.filter (fun a => 0 < a)).length

/-- The sign-flip prompt condition `neg_count > pos_count` from
`process_csv_file` / `process_excel_file`. -/
def flip_requested (xs : List Rat) : Bool :=
  posCount xs < negCount xs

/-- The sign-flip step: when the prompt condition holds and the caller
answers yes, `new_df["Amount"] = -new_df["Amount"]` negates the whole
column; otherwise the amounts are untouched. -/
def apply_sign_flip (xs : List Rat) (confirm : Bool) : List Rat :=
  if flip_requested xs && confirm then xs.map (fun a => -a) else xs

/-- C4: the sign-flip confirmation is requested exactly when strictly
negative amounts outnumber strictly positive ones; a confirmed flip
negates every amount of the batch (positives included), and the batch is
only ever left unchanged or negated whole — never a proper subset. -/
theorem apply_sign_flip_all_or_nothing (xs : List Rat) (confirm : Bool) :
    (flip_requested xs = true ↔ posCount xs < negCount xs) ∧
    (flip_requested xs = true → confirm = true →
      ∀ i : Nat, (apply_sign_flip xs confirm).get? i = (xs.get? i).map (fun a => -a)) ∧
    (apply_sign_flip xs confirm = xs.map (fun a => -a) ∨
      apply_sign_flip xs confirm = xs) := by
  refine ⟨by simp [flip_requested], ?_, ?_⟩
  · intro hreq hconf i
    rw [apply_sign_flip, hreq, hconf]
    simp
  · by_cases h : (flip_requested xs && confirm) = true
    · exact Or.inl (by rw [apply_sign_flip, h]; simp)
    · exact Or.inr (by rw [apply_sign_flip]; simp [h])

/-- Witness for C4: a batch of three negatives and one positive triggers
the prompt, and a confirmed flip negates the positive amount too. -/
theorem apply_sign_flip_all_or_nothing_witness :
    flip_requested [(-1 : Rat), -2, -3, 4] = true ∧
    (apply_sign_flip [(-1 : Rat), -2, -3, 4] true).get? 3 = some (-4 : Rat) := by
  refine ⟨by decide, ?_⟩
  rw [(apply_sign_flip_all_or_nothing [(-1 : Rat), -2, -3, 4] true).2.1 (by decide) rfl 3]
  rfl

/-- `os.path.basename`: the part of the path after the last slash. -/
def basename (p : String) : String :=
  (pySplit '/' p).getLastD p

/-- Embeds Python's `s.endswith(suffix)`. -/
def endsWithB (suffix s : String) : Bool :=
  suffix.data.isSuffixOf s.data

/-- `determine_payment_method` from `bankfiles.py` / `amex9.py`,
instantiated for the delimited-text inputs that `process_csv_file`
feeds it: start empty; set `"chase"` if the lowercased basename of the
path contains `"chase"`; scan the loaded DataFrame's cells (as strings)
for `"Platinum Card"` and, failing that, for a `.csv` path scan the raw
file text; if found, overwrite the label with `"amex"`.  The all-sheets
fallback scan for Excel paths is outside this model (every theorem below
instantiates a `.csv` path). -/
def determine_payment_method (filePath : String) (cells : List String)
    (fileText : String) : String :=
  let payment_method := if substrB "chase" (pyLower (basename filePath)) then "chase" else ""
  let platinum_in_df := cells.any (fun v => substrB "Platinum Card" v)
  let platinum_found :=
    if platinum_in_df then platinum_in_df
    else if endsWithB ".csv" (pyLower filePath) then substrB "Platinum Card" fileText
    else platinum_in_df
  if platinum_found then "amex" else payment_method

/-- The eight-column VACU signature checked by `process_csv_file`. -/
def vacu_columns : List String :=
  ["Account Number", "Post Date", "Check", "Description",
    "Debit", "Credit", "Status", "Balance"]

/-- The payment-method label `process_csv_file` stores: the
`determine_payment_method` result, overridden to `"vacu"` when all eight
VACU-signature columns are present in the raw CSV's columns. -/
def payment_method_for_csv (filePath : String) (origCols cells : List String)
    (fileText : String) : String :=
  let is_vacu_file := vacu_columns.all (fun c => origCols.contains c)
  let pm := determine_payment_method filePath cells fileText
  if is_vacu_file then "vacu" else pm

/-- C5: payment-method precedence — `"vacu"` whenever the eight VACU
columns are all present, regardless of filename or content; otherwise
`"amex"` when `"Platinum Card"` occurs in a cell or in the raw file
text (overwriting a chase filename); otherwise `"chase"` when the
lowercased basename contains `"chase"`; otherwise the empty string. -/
theorem payment_method_for_csv_precedence (filePath : String)
    (origCols cells : List String) (fileText : String)
    (hcsv : endsWithB ".csv" (pyLower filePath) = true) :
    payment_method_for_csv filePath origCols cells fileText =
      if vacu_columns.all (fun c => origCols.contains c) then "vacu"
      else if cells.any (fun v => substrB "Platinum Card" v)
          || substrB "Platinum Card" fileText then "amex"
      else if substrB "chase" (pyLower (basename filePath)) then "chase"
      else "" := by
  by_cases hv : vacu_columns.all (fun c => origCols.contains c) <;>
  by_cases hdf : cells.any (fun v => substrB "Platinum Card" v) <;>
  by_cases hft : substrB "Platinum Card" fileText <;>
  by_cases hch : substrB "chase" (pyLower (basename filePath)) <;>
    simp [payment_method_for_csv, determine_payment_method, hv, hdf, hft, hch, hcsv]

/-- Witness for C5: a VACU-signature file whose name contains `"chase"`
is labeled `"vacu"`, not `"chase"`. -/
theorem payment_method_for_csv_precedence_witness :
    endsWithB ".csv" (pyLower "Chase_Statement.csv") = true ∧
    payment_method_for_csv "Chase_Statement.csv" vacu_columns [] "" = "vacu" := by
  refine ⟨by decide, ?_⟩
  rw [payment_method_for_csv_precedence "Chase_Statement.csv" vacu_columns [] "" (by decide)]
  decide

/-- A pandas cell as far as the amount pipeline observes it: a numeric
value, a raw string, or a missing value (`NaN`). -/
inductive Cell where
  | num (q : Rat)
  | str (s : String)
  | na
deriving DecidableEq, Repr

/-- Value of an all-digit character list; `none` when a non-digit
occurs.  The empty list gives `some 0`; callers guard non-emptiness. -/
def digitsVal (cs : List Char) : Option Nat :=
  cs.foldl (fun acc c =>
    match acc with
    | none => none
    | some n => if c.isDigit then some (10 * n + (c.toNat - 48)) else none) (some 0)

/-- The numeric parsing `pd.to_numeric` applies to strings, for plain
optionally-signed decimal literals; exotic forms (scientific notation,
thousands separators) are treated as unparseable, which is all the
claims exercise. -/
def parseNum (s : String) : Option Rat :=
  let t := pyStrip s
  let sgn : Rat := if t.data.head? = some '-' then -1 else 1
  let rest : String :=
    if t.data.head? = some '-' || t.data.head? = some '+'
    then String.mk t.data.tail else t
  match pySplit '.' rest with
  | [intPart] =>
    if intPart.data.isEmpty then none
    else (digitsVal intPart.data).map (fun n => sgn * n)
  | [intPart, fracPart] =>
    if intPart.data.isEmpty && fracPart.data.isEmpty then none
    else
      match digitsVal intPart.data, digitsVal fracPart.data with
      | some ip, some fp =>
        some (sgn * ((ip : Rat) + (fp : Rat) / ((10 : Rat) ^ fracPart.data.length)))
      | _, _ => none
  | _ => none

/-- `col.fillna(0)`: missing values become the number 0, everything else
is untouched. -/
def fillna0 : Cell → Cell
  | .na => .num 0
  | c => c

/-- `pd.to_numeric(col, errors='coerce')` on one cell: numbers pass
through, strings parse to a number or coerce to `NaN`, `NaN` stays. -/
def to_numeric_coerce : Cell → Cell
  | .num q => .num q
  | .str s => match parseNum s with | some q => .num q | none => .na
  | .na => .na

/-- The exact per-cell pipeline of the Debit/Credit branch of
`process_csv_file` (`bankfiles.py` lines 365-370): `fillna(0)`, then
`pd.to_numeric(..., errors='coerce')`, then `fillna(0)` again. -/
def debit_credit_pipeline (c : Cell) : Cell :=
  fillna0 (to_numeric_coerce (fillna0 c))

/-- Numeric reading of a cell (0 for non-numbers), used to subtract the
already-coerced Debit and Credit columns. -/
def cellRat : Cell → Rat
  | .num q => q
  | _ => 0

/-- The amount-column computation of `process_csv_file` (`bankfiles.py`
lines 358-378).  `hasAmountCol` is `has_amount or "Amount" in
df.columns`: when it holds, the resolved Amount column is used exactly
as read, with no coercion.  Otherwise, when both a Debit and a Credit
column are present, each cell goes through `debit_credit_pipeline` and
`Amount = Debit - Credit` rowwise.  Otherwise every one of the `nRows`
rows gets amount 0 (and the code prints a warning). -/
def computeAmountColumn (hasAmountCol : Bool) (amountCol : List Cell)
    (hasDebit hasCredit : Bool) (debitCol creditCol : List Cell)
    (nRows : Nat) : List Cell :=
  if hasAmountCol then amountCol
  else if hasDebit && hasCredit then
    List.zipWith
      (fun d c =>
        Cell.num (cellRat (debit_credit_pipeline d) - cellRat (debit_credit_pipeline c)))
      debitCol creditCol
  else List.replicate nRows (Cell.num 0)

/-- Counterexample to C3: the direct-amount path performs no numeric
coercion — an unparseable amount cell `"abc"` is kept verbatim, not
turned into 0 as the claim states (and no warning count exists for it in
the code). -/
theorem computeAmountColumn_no_direct_coercion :
    parseNum "abc" = none ∧
    computeAmountColumn true [Cell.str "abc"] false false [] [] 1 = [Cell.str "abc"] ∧
    Cell.str "abc" ≠ Cell.num 0 := by
  refine ⟨by decide, rfl, ?_⟩
  intro h
  simp at h

/-- C3 (amended): the direct amount column is used exactly as read,
without coercion; failing that, with both Debit and Credit present each
cell is NaN-filled to 0, numerically coerced (unparseable strings
becoming NaN) and NaN-filled again, and each row's amount is debit minus
credit; with neither, every row's amount is 0. -/
theorem computeAmountColumn_spec (hasAmountCol hasDebit hasCredit : Bool)
    (amountCol debitCol creditCol : List Cell) (nRows : Nat) :
    (hasAmountCol = true →
      computeAmountColumn hasAmountCol amountCol hasDebit hasCredit debitCol creditCol nRows
        = amountCol) ∧
    (hasAmountCol = false → hasDebit = true → hasCredit = true →
      ∀ i : Nat,
        (computeAmountColumn hasAmountCol amountCol hasDebit hasCredit debitCol creditCol
            nRows).get? i =
          ((debitCol.get? i).map (fun d c =>
            Cell.num (cellRat (debit_credit_pipeline d) -
              cellRat (debit_credit_pipeline c)))).bind
            (fun g => (creditCol.get? i).map g)) ∧
    (hasAmountCol = false → (hasDebit = false ∨ hasCredit = false) →
      computeAmountColumn hasAmountCol amountCol hasDebit hasCredit debitCol creditCol nRows
        = List.replicate nRows (Cell.num 0)) ∧
    debit_credit_pipeline Cell.na = Cell.num 0 ∧
    (∀ q : Rat, debit_credit_pipeline (Cell.num q) = Cell.num q) ∧
    (∀ s : String, parseNum s = none → debit_credit_pipeline (Cell.str s) = Cell.num 0) ∧
    (∀ (s : String) (q : Rat), parseNum s = some q →
      debit_credit_pipeline (Cell.str s) = Cell.num q) := by
  refine ⟨?_, ?_, ?_, rfl, fun q => rfl, ?_, ?_⟩
  · intro h
    rw [computeAmountColumn, h]
    rfl
  · intro h hd hc i
    rw [computeAmountColumn, h, hd, hc]
    simpa using List.get?_zipWith' _ debitCol creditCol i
  · intro h hdc
    rw [computeAmountColumn, h]
    rcases hdc with hd | hd <;> simp [hd]
  · intro s hs
    simp [debit_credit_pipeline, fillna0, to_numeric_coerce, hs]
  · intro s q hs
    simp [debit_credit_pipeline, fillna0, to_numeric_coerce, hs]

/-- Witness for C3 (amended): a Debit/Credit file whose debit cell is an
unparseable string and whose credit cell is missing yields amount
`0 - 0 = 0` on that row, and a direct-amount batch is returned as
read. -/
theorem computeAmountColumn_spec_witness :
    computeAmountColumn true [Cell.num 7] false false [] [] 1 = [Cell.num 7] ∧
    (computeAmountColumn false [] true true [Cell.str "abc"] [Cell.na] 1).get? 0 =
      some (Cell.num 0) := by
  have h := computeAmountColumn_spec true false false [Cell.num 7] [] [] 1
  have h2 := computeAmountColumn_spec false true true [] [Cell.str "abc"] [Cell.na] 1
  refine ⟨h.1 rfl, ?_⟩
  rw [h2.2.1 rfl rfl rfl 0]
  have hp : parseNum "abc" = none := by decide
  simp [debit_credit_pipeline, fillna0, to_numeric_coerce, cellRat, hp, List.get?]

/-- Python dict assignment `m[k] = v` on an insertion-ordered
association list: replace the value at an existing key, else append. -/
def insertAssoc (m : List (String × String)) (k v : String) :
    List (String × String) :=
  if m.any (fun p => p.1 == k) then
    m.map (fun p => if p.1 == k then (k, v) else p)
  else m ++ [(k, v)]

/-- The `alternatives` table of `process_csv_file` in `bankfiles.py`. -/
def alternatives_bankfiles : String → List String
  | "Date" => ["Post Date", "Transaction Date", "TRANSACTION DATE", "DATE"]
  | "Amount" => ["AMOUNT", "TRANSACTION AMOUNT", "Transaction Amount"]
  | "Description" => ["DESCRIPTION", "Transaction Description", "Details", "DETAILS"]
  | "Debit" => ["DEBIT", "Debit Amount", "DR"]
  | "Credit" => ["CREDIT", "Credit Amount", "CR"]
  | _ => []

/-- The `alternatives` table of `process_csv_file` in `amex9.py`
(no Debit/Credit entries; `alternatives.get(col, [])` yields `[]`). -/
def alternatives_amex9 : String → List String
  | "Date" => ["Post Date", "Transaction Date", "TRANSACTION DATE", "DATE"]
  | "Amount" => ["AMOUNT", "TRANSACTION AMOUNT", "Transaction Amount"]
  | "Description" => ["DESCRIPTION", "Transaction Description", "Details", "DETAILS"]
  | _ => []

/-- First alternative name present among the available columns:
`next(alt for alt in alternatives.get(col, []) if alt in df.columns)`. -/
def findAlt (alts : List String) (cols : List String) : Option String :=
  alts.find? (fun a => cols.contains a)

/-- Accumulated state of the `for col in needed_columns` loop:
`column_mapping` (actual name → canonical name), `missing_cols`, and the
list of fields the interactive collaborator was asked about. -/
structure ResolveState where
  mapping : List (String × String)
  missing : List String
  asked : List String
deriving DecidableEq, Repr

/-- One iteration of the `for col in needed_columns` loop of
`process_csv_file`: keep an exactly-named column; else map the first
present alternative name; else ask the collaborator (`ask field`,
embedding the `input()` prompt) — `some c` with `1 ≤ c ≤ len(cols)`
maps the chosen column, anything else (out-of-range number, `0`, or a
non-integer, embedded as `none`) adds the field to `missing_cols`. -/
def resolveStep (cols : List String) (alts : String → List String)
    (ask : String → Option Int) (st : ResolveState) (field : String) :
    ResolveState :=
  if cols.contains field then st
  else
    match findAlt (alts field) cols with
    | some a => { st with mapping := insertAssoc st.mapping a field }
    | none =>
      let st' := { st with asked := st.asked ++ [field] }
      match ask field with
      | some choice =>
        if 1 ≤ choice ∧ choice ≤ (cols.length : Int) then
          { st' with
            mapping := insertAssoc st'.mapping (cols.getD (choice - 1).toNat "") field }
        else { st' with missing := st'.missing ++ [field] }
      | none => { st' with missing := st'.missing ++ [field] }

/-- The whole `for col in needed_columns` loop. -/
def resolveLoop (cols needed : List String) (alts : String → List String)
    (ask : String → Option Int) : ResolveState :=
  needed.foldl (resolveStep cols alts ask) ⟨[], [], []⟩

/-- `df.rename(columns=column_mapping)` applied to the column names. -/
def applyRename (cols : List String) (mapping : List (String × String)) :
    List String :=
  cols.map (fun c =>
    match mapping.find? (fun p => p.1 == c) with
    | some p => p.2
    | none => c)

/-- Columns after the mapping is applied and each still-missing needed
column is synthesized as an empty column (`df[col] = ""`). -/
def columnsAfter (cols : List String) (st : ResolveState) : List String :=
  applyRename cols st.mapping ++ st.missing

/-- `needed_columns` in `bankfiles.py`: `["Date", "Description"]`, plus
`"Amount"` only when a column exactly named `"Amount"` is present
(`has_amount`). -/
def needed_columns_bankfiles (cols : List String) : List String :=
  ["Date", "Description"] ++ (if cols.contains "Amount" then ["Amount"] else [])

/-- `needed_columns` in `amex9.py`: always all three canonical fields. -/
def needed_columns_amex9 : List String :=
  ["Date", "Amount", "Description"]

/-- Where the normalized amount column of `bankfiles.py` comes from. -/
inductive AmountSource where
  | direct
  | debitCredit
  | zeroDefault
deriving DecidableEq, Repr

/-- The branch taken by `bankfiles.py` lines 358-378: use `df["Amount"]`
directly when `has_amount or "Amount" in df.columns`; otherwise derive
it from a `Debit`/`Credit` pair when both are present after renaming;
otherwise default the whole column to 0. -/
def bankfiles_amount_source (cols : List String) (ask : String → Option Int) :
    AmountSource :=
  let has_amount := cols.contains "Amount"
  let st := resolveLoop cols (needed_columns_bankfiles cols) alternatives_bankfiles ask
  let colsAfter := columnsAfter cols st
  if has_amount || colsAfter.contains "Amount" then .direct
  else if colsAfter.contains "Debit" && colsAfter.contains "Credit" then .debitCredit
  else .zeroDefault

/-- Counterexample to C2: for the columns `["Date", "Description",
"AMOUNT"]` the fixed alternative `"AMOUNT"` for the amount field is
present, yet `bankfiles.py` never consults it — `"Amount"` is not in
`needed_columns` (so the collaborator is not invoked either) and the
amount column is defaulted to zero instead of taken from `"AMOUNT"`. -/
theorem bankfiles_amount_alternative_ignored :
    findAlt (alternatives_bankfiles "Amount") ["Date", "Description", "AMOUNT"] =
      some "AMOUNT" ∧
    bankfiles_amount_source ["Date", "Description", "AMOUNT"] (fun _ => none) =
      AmountSource.zeroDefault ∧
    "Amount" ∉ (resolveLoop ["Date", "Description", "AMOUNT"]
      (needed_columns_bankfiles ["Date", "Description", "AMOUNT"])
      alternatives_bankfiles (fun _ => none)).asked := by
  refine ⟨by decide, by decide, by decide⟩

/-- Any entry of `insertAssoc m k v` is an entry of `m` or is `(k, v)`. -/
theorem mem_insertAssoc (p : String × String) (m : List (String × String))
    (k v : String) (hp : p ∈ insertAssoc m k v) : p ∈ m ∨ p = (k, v) := by
  unfold insertAssoc at hp
  by_cases h : m.any (fun q => q.1 == k) = true
  · rw [if_pos h] at hp
    rcases List.mem_map.mp hp with ⟨q, hq, hqe⟩
    by_cases hqk : (q.1 == k) = true
    · rw [if_pos hqk] at hqe
      exact Or.inr hqe.symm
    · rw [if_neg hqk] at hqe
      exact Or.inl (hqe ▸ hq)
  · rw [if_neg h] at hp
    rcases List.mem_append.mp hp with h1 | h1
    · exact Or.inl h1
    · exact Or.inr (List.mem_singleton.mp h1)

/-- `insertAssoc m k v` always contains the entry `(k, v)`. -/
theorem self_mem_insertAssoc (m : List (String × String)) (k v : String) :
    (k, v) ∈ insertAssoc m k v := by
  unfold insertAssoc
  by_cases h : m.any (fun q => q.1 == k) = true
  · rw [if_pos h]
    rcases List.any_eq_true.mp h with ⟨q, hq, hqk⟩
    have hmem := List.mem_map_of_mem
      (fun q : String × String => if q.1 == k then (k, v) else q) hq
    simpa [hqk] using hmem
  · rw [if_neg h]
    exact List.mem_append.mpr (Or.inr (List.mem_singleton.mpr rfl))

/-- Entries whose key differs from the inserted key survive
`insertAssoc`. -/
theorem mem_insertAssoc_of_ne (m : List (String × String)) (k v k' v' : String)
    (hne : k ≠ k') (h : (k, v) ∈ m) : (k, v) ∈ insertAssoc m k' v' := by
  unfold insertAssoc
  by_cases hany : m.any (fun q => q.1 == k') = true
  · rw [if_pos hany]
    have hmem := List.mem_map_of_mem
      (fun q : String × String => if q.1 == k' then (k', v') else q) h
    simpa [hne] using hmem
  · rw [if_neg hany]
    exact List.mem_append.mpr (Or.inl h)

/-- A found alternative belongs to the alternatives list. -/
theorem findAlt_mem {alts cols : List String} {a : String}
    (h : findAlt alts cols = some a) : a ∈ alts :=
  List.mem_of_find?_eq_some h

/-- A step leaves `asked` untouched or appends exactly its own field. -/
theorem resolveStep_asked_eq (cols : List String) (alts : String → List String)
    (ask : String → Option Int) (st : ResolveState) (field : String) :
    (resolveStep cols alts ask st field).asked = st.asked ∨
    (resolveStep cols alts ask st field).asked = st.asked ++ [field] := by
  unfold resolveStep
  split
  · exact Or.inl rfl
  · split
    · exact Or.inl rfl
    · split
      · split
        · exact Or.inr rfl
        · exact Or.inr rfl
      · exact Or.inr rfl

/-- A step leaves `missing` untouched or appends exactly its own
field. -/
theorem resolveStep_missing_eq (cols : List String) (alts : String → List String)
    (ask : String → Option Int) (st : ResolveState) (field : String) :
    (resolveStep cols alts ask st field).missing = st.missing ∨
    (resolveStep cols alts ask st field).missing = st.missing ++ [field] := by
  unfold resolveStep
  split
  · exact Or.inl rfl
  · split
    · exact Or.inl rfl
    · split
      · split
        · exact Or.inl rfl
        · exact Or.inr rfl
      · exact Or.inr rfl

/-- Any mapping entry after a step was already present or carries the
step's own field as its value. -/
theorem resolveStep_mapping_sub (cols : List String) (alts : String → List String)
    (ask : String → Option Int) (st : ResolveState) (field : String)
    (p : String × String) (hp : p ∈ (resolveStep cols alts ask st field).mapping) :
    p ∈ st.mapping ∨ p.2 = field := by
  revert hp
  unfold resolveStep
  split
  · exact fun hp => Or.inl hp
  · split
    · intro hp
      rcases mem_insertAssoc p st.mapping _ _ hp with h1 | h1
      · exact Or.inl h1
      · exact Or.inr (by rw [h1])
    · split
      · split
        · intro hp
          rcases mem_insertAssoc p st.mapping _ _ hp with h1 | h1
          · exact Or.inl h1
          · exact Or.inr (by rw [h1])
        · exact fun hp => Or.inl hp
      · exact fun hp => Or.inl hp

/-- A mapping entry keyed outside the step's alternative names survives
the step when the collaborator answers skip for that field. -/
theorem resolveStep_mapping_pres (cols : List String) (alts : String → List String)
    (ask : String → Option Int) (st : ResolveState) (field : String)
    (k v : String) (hka : ∀ x ∈ alts field, x ≠ k) (hask : ask field = none)
    (h : (k, v) ∈ st.mapping) :
    (k, v) ∈ (resolveStep cols alts ask st field).mapping := by
  unfold resolveStep
  split
  · exact h
  · split
    · next a ha =>
      exact mem_insertAssoc_of_ne _ _ _ _ _ (fun hkk => hka a (findAlt_mem ha) hkk.symm) h
    · split
      · next c hc => rw [hask] at hc; exact absurd hc (by simp)
      · exact h

/-- Frame over a run of the loop: fields different from `f` never change
whether `f` was asked about. -/
theorem resolveFold_asked_frame (cols : List String) (alts : String → List String)
    (ask : String → Option Int) (l : List String) (f : String)
    (hl : ∀ g ∈ l, g ≠ f) (st : ResolveState) :
    (f ∈ (l.foldl (resolveStep cols alts ask) st).asked ↔ f ∈ st.asked) := by
  induction l generalizing st with
  | nil => exact Iff.rfl
  | cons g t ih =>
    rw [List.foldl_cons]
    have hg : g ≠ f := hl g (List.mem_cons_self g t)
    have ht : ∀ x ∈ t, x ≠ f := fun x hx => hl x (List.mem_cons_of_mem g hx)
    rw [ih ht]
    rcases resolveStep_asked_eq cols alts ask st g with h | h <;> rw [h]
    simp [Ne.symm hg]

/-- Frame over a run of the loop for `missing`. -/
theorem resolveFold_missing_frame (cols : List String) (alts : String → List String)
    (ask : String → Option Int) (l : List String) (f : String)
    (hl : ∀ g ∈ l, g ≠ f) (st : ResolveState) :
    (f ∈ (l.foldl (resolveStep cols alts ask) st).missing ↔ f ∈ st.missing) := by
  induction l generalizing st with
  | nil => exact Iff.rfl
  | cons g t ih =>
    rw [List.foldl_cons]
    have hg : g ≠ f := hl g (List.mem_cons_self g t)
    have ht : ∀ x ∈ t, x ≠ f := fun x hx => hl x (List.mem_cons_of_mem g hx)
    rw [ih ht]
    rcases resolveStep_missing_eq cols alts ask st g with h | h <;> rw [h]
    simp [Ne.symm hg]

/-- Frame over a run of the loop: fields different from `f` never
introduce a mapping entry whose value is `f`. -/
theorem resolveFold_mapping_value_frame (cols : List String)
    (alts : String → List String) (ask : String → Option Int) (l : List String)
    (f : String) (hl : ∀ g ∈ l, g ≠ f) (st : ResolveState)
    (h : ∀ a, (a, f) ∉ st.mapping) :
    ∀ a, (a, f) ∉ (l.foldl (resolveStep cols alts ask) st).mapping := by
  induction l generalizing st with
  | nil => exact h
  | cons g t ih =>
    rw [List.foldl_cons]
    have hg : g ≠ f := hl g (List.mem_cons_self g t)
    have ht : ∀ x ∈ t, x ≠ f := fun x hx => hl x (List.mem_cons_of_mem g hx)
    refine ih ht _ ?_
    intro a ha
    rcases resolveStep_mapping_sub cols alts ask st g (a, f) ha with h1 | h1
    · exact h a h1
    · exact hg h1.symm

/-- `asked` only grows along the loop. -/
theorem resolveFold_asked_mono (cols : List String) (alts : String → List String)
    (ask : String → Option Int) (l : List String) (f : String) (st : ResolveState)
    (h : f ∈ st.asked) : f ∈ (l.foldl (resolveStep cols alts ask) st).asked := by
  induction l generalizing st with
  | nil => exact h
  | cons g t ih =>
    rw [List.foldl_cons]
    refine ih _ ?_
    rcases resolveStep_asked_eq cols alts ask st g with h1 | h1 <;> rw [h1]
    · exact h
    · exact List.mem_append.mpr (Or.inl h)

/-- `missing` only grows along the loop. -/
theorem resolveFold_missing_mono (cols : List String) (alts : String → List String)
    (ask : String → Option Int) (l : List String) (f : String) (st : ResolveState)
    (h : f ∈ st.missing) : f ∈ (l.foldl (resolveStep cols alts ask) st).missing := by
  induction l generalizing st with
  | nil => exact h
  | cons g t ih =>
    rw [List.foldl_cons]
    refine ih _ ?_
    rcases resolveStep_missing_eq cols alts ask st g with h1 | h1 <;> rw [h1]
    · exact h
    · exact List.mem_append.mpr (Or.inl h)

/-- A mapping entry survives a run of the loop when every later field
skips its collaborator prompt and owns no alternative equal to the
entry's key. -/
theorem resolveFold_mapping_pres (cols : List String) (alts : String → List String)
    (ask : String → Option Int) (l : List String) (k v : String)
    (hl : ∀ g ∈ l, ask g = none ∧ ∀ x ∈ alts g, x ≠ k) (st : ResolveState)
    (h : (k, v) ∈ st.mapping) :
    (k, v) ∈ (l.foldl (resolveStep cols alts ask) st).mapping := by
  induction l generalizing st with
  | nil => exact h
  | cons g t ih =>
    rw [List.foldl_cons]
    have hg := hl g (List.mem_cons_self g t)
    have ht : ∀ x ∈ t, ask x = none ∧ ∀ y ∈ alts x, y ≠ k :=
      fun x hx => hl x (List.mem_cons_of_mem g hx)
    exact ih ht _ (resolveStep_mapping_pres cols alts ask st g k v hg.2 hg.1 h)

/-- Everything the loop asks about is one of its needed fields. -/
theorem resolveFold_asked_sub (cols : List String) (alts : String → List String)
    (ask : String → Option Int) (l : List String) (st : ResolveState) :
    ∀ x ∈ (l.foldl (resolveStep cols alts ask) st).asked, x ∈ st.asked ∨ x ∈ l := by
  induction l generalizing st with
  | nil => exact fun x hx => Or.inl hx
  | cons g t ih =>
    intro x hx
    rw [List.foldl_cons] at hx
    rcases ih _ x hx with h1 | h1
    · rcases resolveStep_asked_eq cols alts ask st g with h2 | h2 <;> rw [h2] at h1
      · exact Or.inl h1
      · rcases List.mem_append.mp h1 with h3 | h3
        · exact Or.inl h3
        · exact Or.inr (List.mem_singleton.mp h3 ▸ List.mem_cons_self g t)
    · exact Or.inr (List.mem_cons_of_mem g h1)

/-- Everything the loop marks missing is one of its needed fields. -/
theorem resolveFold_missing_sub (cols : List String) (alts : String → List String)
    (ask : String → Option Int) (l : List String) (st : ResolveState) :
    ∀ x ∈ (l.foldl (resolveStep cols alts ask) st).missing,
      x ∈ st.missing ∨ x ∈ l := by
  induction l generalizing st with
  | nil => exact fun x hx => Or.inl hx
  | cons g t ih =>
    intro x hx
    rw [List.foldl_cons] at hx
    rcases ih _ x hx with h1 | h1
    · rcases resolveStep_missing_eq cols alts ask st g with h2 | h2 <;> rw [h2] at h1
      · exact Or.inl h1
      · rcases List.mem_append.mp h1 with h3 | h3
        · exact Or.inl h3
        · exact Or.inr (List.mem_singleton.mp h3 ▸ List.mem_cons_self g t)
    · exact Or.inr (List.mem_cons_of_mem g h1)

/-- Every mapping value produced by the loop is one of its needed
fields. -/
theorem resolveFold_mapping_value_sub (cols : List String)
    (alts : String → List String) (ask : String → Option Int) (l : List String)
    (st : ResolveState) :
    ∀ p ∈ (l.foldl (resolveStep cols alts ask) st).mapping,
      p ∈ st.mapping ∨ p.2 ∈ l := by
  induction l generalizing st with
  | nil => exact fun p hp => Or.inl hp
  | cons g t ih =>
    intro p hp
    rw [List.foldl_cons] at hp
    rcases ih _ p hp with h1 | h1
    · rcases resolveStep_mapping_sub cols alts ask st g p h1 with h2 | h2
      · exact Or.inl h2
      · exact Or.inr (h2 ▸ List.mem_cons_self g t)
    · exact Or.inr (List.mem_cons_of_mem g h1)

/-- Every renamed column name is an original column name or a mapping
value. -/
theorem mem_applyRename (x : String) (cols : List String)
    (mapping : List (String × String)) (hx : x ∈ applyRename cols mapping) :
    x ∈ cols ∨ ∃ p ∈ mapping, p.2 = x := by
  rcases List.mem_map.mp hx with ⟨c, hc, hce⟩
  rcases hfind : mapping.find? (fun p => p.1 == c) with _ | p
  · rw [hfind] at hce
    exact Or.inl (hce ▸ hc)
  · rw [hfind] at hce
    exact Or.inr ⟨p, List.mem_of_find?_eq_some hfind, hce⟩

/-- Own-step equation: an exactly-named column leaves the state
untouched. -/
theorem resolveStep_of_contains (cols : List String) (alts : String → List String)
    (ask : String → Option Int) (st : ResolveState) (field : String)
    (h : cols.contains field = true) :
    resolveStep cols alts ask st field = st := by
  unfold resolveStep
  rw [if_pos h]

/-- Own-step equation: a present alternative is mapped onto the field,
with no collaborator involvement. -/
theorem resolveStep_of_alt (cols : List String) (alts : String → List String)
    (ask : String → Option Int) (st : ResolveState) (field a : String)
    (h : cols.contains field = false) (ha : findAlt (alts field) cols = some a) :
    resolveStep cols alts ask st field =
      { st with mapping := insertAssoc st.mapping a field } := by
  unfold resolveStep
  split
  · next hcont => rw [h] at hcont; simp at hcont
  · split
    · next a2 ha2 =>
      rw [ha] at ha2
      rw [Option.some.inj ha2]
    · next ha2 => rw [ha] at ha2; simp at ha2

/-- Own-step equation: with no exact or alternative name, the field is
recorded as asked about, whatever the collaborator then answers. -/
theorem resolveStep_asked_of_noalt (cols : List String) (alts : String → List String)
    (ask : String → Option Int) (st : ResolveState) (field : String)
    (h : cols.contains field = false) (ha : findAlt (alts field) cols = none) :
    (resolveStep cols alts ask st field).asked = st.asked ++ [field] := by
  unfold resolveStep
  split
  · next hcont => rw [h] at hcont; simp at hcont
  · split
    · next a2 ha2 => rw [ha] at ha2; simp at ha2
    · split
      · split
        · rfl
        · rfl
      · rfl

/-- Own-step equation: with no exact or alternative name and a skip
answer, the field is asked about and marked missing. -/
theorem resolveStep_of_skip (cols : List String) (alts : String → List String)
    (ask : String → Option Int) (st : ResolveState) (field : String)
    (h : cols.contains field = false) (ha : findAlt (alts field) cols = none)
    (hask : ask field = none) :
    resolveStep cols alts ask st field =
      { st with asked := st.asked ++ [field], missing := st.missing ++ [field] } := by
  unfold resolveStep
  split
  · next hcont => rw [h] at hcont; simp at hcont
  · split
    · next a2 ha2 => rw [ha] at ha2; simp at ha2
    · split
      · next c hc => rw [hask] at hc; simp at hc
      · rfl

/-- The resolution cascade the specification describes for one required
field (formalizing claim C2's wording): an exactly-named column is used
as-is — the field is never asked about, never synthesized, and nothing
is renamed onto it; otherwise a present fixed alternative is renamed
onto the field without invoking the collaborator (the rename surviving
whenever no other field's collaborator choice competes for it);
otherwise the collaborator is invoked, and on a skip answer the field is
synthesized as an empty column among the resulting columns. -/
def ResolutionCascadeSpec (cols needed : List String)
    (alts : String → List String) (ask : String → Option Int) (f : String) : Prop :=
  (cols.contains f = true →
    f ∉ (resolveLoop cols needed alts ask).asked ∧
    f ∉ (resolveLoop cols needed alts ask).missing ∧
    ∀ a, (a, f) ∉ (resolveLoop cols needed alts ask).mapping) ∧
  (∀ a, cols.contains f = false → findAlt (alts f) cols = some a →
    f ∉ (resolveLoop cols needed alts ask).asked ∧
    f ∉ (resolveLoop cols needed alts ask).missing ∧
    ((∀ g ∈ needed, g ≠ f → ask g = none ∧ ∀ x ∈ alts g, x ∉ alts f) →
      (a, f) ∈ (resolveLoop cols needed alts ask).mapping)) ∧
  (cols.contains f = false → findAlt (alts f) cols = none →
    f ∈ (resolveLoop cols needed alts ask).asked ∧
    (ask f = none →
      f ∈ (resolveLoop cols needed alts ask).missing ∧
      f ∈ columnsAfter cols (resolveLoop cols needed alts ask)))

/-- Each needed field of a duplicate-free needed list goes through the
specification's resolution cascade. -/
theorem resolveLoop_cascade (cols needed : List String)
    (alts : String → List String) (ask : String → Option Int)
    (hnodup : needed.Nodup) (f : String) (hf : f ∈ needed) :
    ResolutionCascadeSpec cols needed alts ask f := by
  rcases List.append_of_mem hf with ⟨s, t, rfl⟩
  have hnd := List.nodup_append.mp hnodup
  have hs : ∀ g ∈ s, g ≠ f := fun g hg hgf =>
    hnd.2.2 hg (hgf ▸ List.mem_cons_self f t)
  have hft : f ∉ t := (List.nodup_cons.mp hnd.2.1).1
  have ht : ∀ g ∈ t, g ≠ f := fun g hg hgf => hft (hgf ▸ hg)
  have hloop : resolveLoop cols (s ++ f :: t) alts ask =
      t.foldl (resolveStep cols alts ask)
        (resolveStep cols alts ask
          (s.foldl (resolveStep cols alts ask) ⟨[], [], []⟩) f) := by
    rw [resolveLoop, List.foldl_append, List.foldl_cons]
  set st0 := s.foldl (resolveStep cols alts ask) ⟨[], [], []⟩ with hst0
  have ha0 : f ∉ st0.asked := fun h =>
    by simpa using (resolveFold_asked_frame cols alts ask s f hs _).mp h
  have hm0 : f ∉ st0.missing := fun h =>
    by simpa using (resolveFold_missing_frame cols alts ask s f hs _).mp h
  have hmap0 : ∀ a, (a, f) ∉ st0.mapping :=
    resolveFold_mapping_value_frame cols alts ask s f hs _ (by simp)
  refine ⟨?_, ?_, ?_⟩
  · intro hcont
    rw [hloop, resolveStep_of_contains cols alts ask st0 f hcont]
    refine ⟨?_, ?_, ?_⟩
    · exact fun h => ha0 ((resolveFold_asked_frame cols alts ask t f ht st0).mp h)
    · exact fun h => hm0 ((resolveFold_missing_frame cols alts ask t f ht st0).mp h)
    · exact resolveFold_mapping_value_frame cols alts ask t f ht st0 hmap0
  · intro a hcf halt
    rw [hloop, resolveStep_of_alt cols alts ask st0 f a hcf halt]
    refine ⟨?_, ?_, ?_⟩
    · intro hmem
      have hframe := (resolveFold_asked_frame cols alts ask t f ht
        { st0 with mapping := insertAssoc st0.mapping a f }).mp hmem
      exact ha0 hframe
    · intro hmem
      have hframe := (resolveFold_missing_frame cols alts ask t f ht
        { st0 with mapping := insertAssoc st0.mapping a f }).mp hmem
      exact hm0 hframe
    · intro hside
      have hmemf : a ∈ alts f := findAlt_mem halt
      refine resolveFold_mapping_pres cols alts ask t a f ?_ _
        (self_mem_insertAssoc st0.mapping a f)
      intro g hg
      have hgn : g ∈ s ++ f :: t :=
        List.mem_append_of_mem_right s (List.mem_cons_of_mem f hg)
      rcases hside g hgn (ht g hg) with ⟨hgask, hgalts⟩
      exact ⟨hgask, fun x hx hxa => hgalts x hx (hxa ▸ hmemf)⟩
  · intro hcf hnone
    constructor
    · rw [hloop]
      refine resolveFold_asked_mono cols alts ask t f _ ?_
      rw [resolveStep_asked_of_noalt cols alts ask st0 f hcf hnone]
      exact List.mem_append_of_mem_right _ (List.mem_singleton.mpr rfl)
    · intro hask
      have hmiss : f ∈ (resolveLoop cols (s ++ f :: t) alts ask).missing := by
        rw [hloop]
        refine resolveFold_missing_mono cols alts ask t f _ ?_
        rw [resolveStep_of_skip cols alts ask st0 f hcf hnone hask]
        exact List.mem_append_of_mem_right _ (List.mem_singleton.mpr rfl)
      exact ⟨hmiss, List.mem_append_of_mem_right _ hmiss⟩

/-- Membership gives a true `contains`. -/
theorem mem_contains_true {l : List String} {x : String} (h : x ∈ l) :
    l.contains x = true := by
  rw [List.contains_eq_any_beq]
  exact List.any_eq_true.mpr ⟨x, h, by simp⟩

/-- C2 (amended): in `amex9.py` every needed field (Date, Amount,
Description) follows the exact-name → fixed-alternative →
collaborator → skip-synthesize cascade; in `bankfiles.py` Date and
Description do too, but Amount is needed only when a column exactly
named `"Amount"` exists — otherwise its alternatives are never
consulted, the collaborator is never invoked for it, no column is
mapped onto it, and the amount column is not taken directly but derived
from a Debit/Credit pair or defaulted to zero. -/
theorem schema_resolution_cascade (cols : List String) (ask : String → Option Int) :
    (∀ f ∈ needed_columns_amex9,
      ResolutionCascadeSpec cols needed_columns_amex9 alternatives_amex9 ask f) ∧
    (∀ f ∈ (["Date", "Description"] : List String),
      ResolutionCascadeSpec cols (needed_columns_bankfiles cols)
        alternatives_bankfiles ask f) ∧
    (cols.contains "Amount" = false →
      "Amount" ∉ (resolveLoop cols (needed_columns_bankfiles cols)
        alternatives_bankfiles ask).asked ∧
      "Amount" ∉ (resolveLoop cols (needed_columns_bankfiles cols)
        alternatives_bankfiles ask).missing ∧
      (∀ a, (a, "Amount") ∉ (resolveLoop cols (needed_columns_bankfiles cols)
        alternatives_bankfiles ask).mapping) ∧
      bankfiles_amount_source cols ask ≠ AmountSource.direct) := by
  refine ⟨?_, ?_, ?_⟩
  · intro f hf
    exact resolveLoop_cascade cols needed_columns_amex9 alternatives_amex9 ask
      (by decide) f hf
  · intro f hf
    have hfDD : f = "Date" ∨ f = "Description" := by simpa using hf
    by_cases hA : cols.contains "Amount" = true
    · have hneed : needed_columns_bankfiles cols = ["Date", "Description", "Amount"] := by
        rw [needed_columns_bankfiles, if_pos hA]
        rfl
      rw [hneed]
      refine resolveLoop_cascade cols _ alternatives_bankfiles ask (by decide) f ?_
      rcases hfDD with rfl | rfl <;> decide
    · have hneed : needed_columns_bankfiles cols = ["Date", "Description"] := by
        rw [needed_columns_bankfiles, if_neg hA]
        rfl
      rw [hneed]
      refine resolveLoop_cascade cols _ alternatives_bankfiles ask (by decide) f ?_
      rcases hfDD with rfl | rfl <;> decide
  · intro hA
    have hneed : needed_columns_bankfiles cols = ["Date", "Description"] := by
      rw [needed_columns_bankfiles, if_neg (by rw [hA]; simp)]
      rfl
    have hrl : resolveLoop cols (needed_columns_bankfiles cols) alternatives_bankfiles ask
        = (needed_columns_bankfiles cols).foldl
          (resolveStep cols alternatives_bankfiles ask) ⟨[], [], []⟩ := rfl
    have hasked : "Amount" ∉ (resolveLoop cols (needed_columns_bankfiles cols)
        alternatives_bankfiles ask).asked := by
      intro h
      rw [hrl] at h
      rcases resolveFold_asked_sub cols alternatives_bankfiles ask _ _ "Amount" h with
        h1 | h1
      · simp at h1
      · rw [hneed] at h1
        simp at h1
    have hmissing : "Amount" ∉ (resolveLoop cols (needed_columns_bankfiles cols)
        alternatives_bankfiles ask).missing := by
      intro h
      rw [hrl] at h
      rcases resolveFold_missing_sub cols alternatives_bankfiles ask _ _ "Amount" h with
        h1 | h1
      · simp at h1
      · rw [hneed] at h1
        simp at h1
    have hmapping : ∀ a, (a, "Amount") ∉ (resolveLoop cols (needed_columns_bankfiles cols)
        alternatives_bankfiles ask).mapping := by
      intro a h
      rw [hrl] at h
      rcases resolveFold_mapping_value_sub cols alternatives_bankfiles ask _ _
        (a, "Amount") h with h1 | h1
      · simp at h1
      · rw [hneed] at h1
        simp at h1
    refine ⟨hasked, hmissing, hmapping, ?_⟩
    have hnotafter : "Amount" ∉ columnsAfter cols
        (resolveLoop cols (needed_columns_bankfiles cols) alternatives_bankfiles ask) := by
      intro hmem
      rcases List.mem_append.mp hmem with h1 | h1
      · rcases mem_applyRename "Amount" cols _ h1 with h2 | ⟨p, hp, hp2⟩
        · rw [mem_contains_true h2] at hA
          simp at hA
        · have : (p.1, "Amount") ∈ (resolveLoop cols (needed_columns_bankfiles cols)
              alternatives_bankfiles ask).mapping := by
            rw [← hp2]
            exact hp
          exact hmapping p.1 this
      · exact hmissing h1
    have hcontafter : (columnsAfter cols (resolveLoop cols (needed_columns_bankfiles cols)
        alternatives_bankfiles ask)).contains "Amount" = false := by
      rcases hcc : (columnsAfter cols (resolveLoop cols (needed_columns_bankfiles cols)
        alternatives_bankfiles ask)).contains "Amount" with _ | _
      · rfl
      · exact absurd (by simpa using hcc) hnotafter
    simp only [bankfiles_amount_source]
    rw [hA, hcontafter]
    simp only [Bool.or_self, Bool.false_eq_true, if_false]
    rcases hdc : ((columnsAfter cols (resolveLoop cols (needed_columns_bankfiles cols)
        alternatives_bankfiles ask)).contains "Debit" &&
      (columnsAfter cols (resolveLoop cols (needed_columns_bankfiles cols)
        alternatives_bankfiles ask)).contains "Credit") with _ | _ <;>
      simp [hdc]

/-- Witness for C2 (amended): with columns `["Post Date", "Description",
"AMOUNT"]` and a collaborator that always skips, `amex9.py` maps the
alternative `"AMOUNT"` onto the amount field, while `bankfiles.py` does
not take the amount column directly. -/
theorem schema_resolution_cascade_witness :
    ("AMOUNT", "Amount") ∈ (resolveLoop ["Post Date", "Description", "AMOUNT"]
        needed_columns_amex9 alternatives_amex9 (fun _ => none)).mapping ∧
    bankfiles_amount_source ["Post Date", "Description", "AMOUNT"] (fun _ => none) ≠
      AmountSource.direct := by
  have h := schema_resolution_cascade ["Post Date", "Description", "AMOUNT"] (fun _ => none)
  refine ⟨?_, ?_⟩
  · exact ((h.1 "Amount" (by decide)).2.1 "AMOUNT" (by decide) (by decide)).2.2 (by decide)
  · exact (h.2.2 (by decide)).2.2.2

end Dashboard
